import Mathlib

set_option maxHeartbeats 1000000
set_option maxRecDepth 4096

/-!
Verification development for the sfcdn on-demand module CDN.

The definitions below are a shallow embedding of the shipped core
(`resolve_config_from_url`, `stringify_url_from_config`, `resolve_from_pkg`,
`InstallQueue.add`, `compile_url` and the import-rewriting loop).  External
collaborators (the npm registry, the `resolve.exports` library, the
filesystem, the key/value cache) are modelled as explicit parameters, and
the two JavaScript regular expressions `URL_REGEX` / `PROCESSED_URL_REGEX`
are hand-compiled into deterministic parsers whose character classes are
taken verbatim from the source.
-/

namespace Sfcdn

deriving instance DecidableEq for Except

/-! ### Character classes of the source regexes

JS `\w` is `[A-Za-z0-9_]`.  The classes below are read off the two regex
literals in the source. -/

def wch (c : Char) : Bool := c.isAlphanum || c = '_'

/-- Class of the `name` atom `[\w.-]`. -/
def nameCh (c : Char) : Bool := wch c || c = '.' || c = '-'

/-- Class of the scope atom `[\w-]`. -/
def scopeCh (c : Char) : Bool := wch c || c = '-'

/-- Class of the `extra` atom `[\w./ -]`. -/
def extraCh (c : Char) : Bool := wch c || c = '.' || c = '/' || c = '-'

/-- Class of the raw-grammar `version` atom and of the pre-release part
`[\w.-]`. -/
def verCh (c : Char) : Bool := wch c || c = '.' || c = '-'

/-! ### Small string utilities (JS `split`, `join`, `path.join`, percent
encoding) -/

/-- `chSplit1 c l` is JS `String.prototype.split` with a one-character
separator, on the character list. -/
def chSplit1 (c : Char) : List Char → List (List Char)
  | [] => [[]]
  | x :: xs =>
    if x = c then [] :: chSplit1 c xs
    else
      match chSplit1 c xs with
      | [] => [[x]]
      | h :: t => (x :: h) :: t

/-- JS `s.split(c)` for a single-character separator. -/
def strSplit1 (c : Char) (s : String) : List String :=
  (chSplit1 c s.data).map fun l => ⟨l⟩

/-- JS `arr.join(c)` for a single-character separator. -/
def strJoin1 (c : Char) : List String → String
  | [] => ""
  | [x] => x
  | x :: y :: xs => x ++ String.singleton c ++ strJoin1 c (y :: xs)

/-- Structural prefix test (the library `String.startsWith` does not reduce
in the kernel). -/
def chPrefix : List Char → List Char → Bool
  | [], _ => true
  | _ :: _, [] => false
  | c :: cs, x :: xs => x = c && chPrefix cs xs

def strStartsWith (s pre : String) : Bool := chPrefix pre.data s.data

def strEndsWith (s suffix : String) : Bool := chPrefix suffix.data.reverse s.data.reverse

/-- JS `s.split(sep)` for a multi-character separator, by fuel (structural,
so that it reduces in the kernel); the fuel is always sufficient at the
call sites. -/
def chSplitStrFuel (sep : List Char) : Nat → List Char → List Char → List (List Char)
  | 0, acc, _ => [acc.reverse]
  | _ + 1, acc, [] => [acc.reverse]
  | fuel + 1, acc, x :: xs =>
    if chPrefix sep (x :: xs) then
      acc.reverse :: chSplitStrFuel sep fuel [] ((x :: xs).drop sep.length)
    else chSplitStrFuel sep fuel (x :: acc) xs

def strSplitStr (sep s : String) : List String :=
  (chSplitStrFuel sep.data (s.data.length + 1) [] s.data).map fun l => ⟨l⟩

/-- Segment normalization of Node `path.join`/`path.normalize`: drop empty
and `.` segments, resolve `..` against the accumulated prefix (dropped at
the root of an absolute path, kept for a relative one). -/
def normSegsAux (abs : Bool) : List String → List String → List String
  | acc, [] => acc
  | acc, s :: rest =>
    if s = "" || s = "." then normSegsAux abs acc rest
    else if s = ".." then
      if acc ≠ [] && acc.getLast? ≠ some ".." then normSegsAux abs acc.dropLast rest
      else if abs then normSegsAux abs acc rest
      else normSegsAux abs (acc ++ [s]) rest
    else normSegsAux abs (acc ++ [s]) rest

/-- Node `path.join`: empty arguments are ignored, the rest are joined with
`/` and the result is normalized; a trailing slash of the raw join is kept. -/
def pathJoin (parts : List String) : String :=
  let ps := parts.filter (fun p => p ≠ "")
  if ps = [] then "." else
    let joined := strJoin1 '/' ps
    let abs := strStartsWith joined "/"
    let trail := strEndsWith joined "/"
    let segs := normSegsAux abs [] (strSplit1 '/' joined)
    let core := (if abs then "/" else "") ++ strJoin1 '/' segs
    let core := if core = "" then "." else core
    if trail && !strEndsWith core "/" then core ++ "/" else core

def hexDigitU (n : Nat) : Char :=
  if n < 10 then Char.ofNat (48 + n) else Char.ofNat (55 + n)

/-- The WHATWG path percent-encode set: C0 controls, space, `"`, `<`, `>`,
backtick, `#`, `?`, the two curly braces, and everything above `~`. -/
def pathEncNeeded (c : Char) : Bool :=
  c.val < 0x20 || c = ' ' || c = Char.ofNat 0x22 || c = '<' || c = '>' ||
  c = Char.ofNat 0x60 || c = '#' || c = '?' || c = Char.ofNat 0x7b ||
  c = Char.ofNat 0x7d || c.val > 0x7e

def encChar (c : Char) : String :=
  if pathEncNeeded c then
    "%" ++ String.singleton (hexDigitU (c.val.toNat / 16 % 16)) ++
      String.singleton (hexDigitU (c.val.toNat % 16))
  else String.singleton c

def encSeg (s : String) : String := String.join (s.data.map encChar)

/-- Path-state segment processing of the WHATWG URL `pathname` setter:
single-dot segments are dropped, double-dot segments shorten the path (both
force a trailing slash when they are last), other segments are
percent-encoded. -/
def encodePathAux : List String → List String → List String
  | acc, [] => acc
  | acc, s :: rest =>
    if s = "." then (if rest = [] then acc ++ [""] else encodePathAux acc rest)
    else if s = ".." then
      (if rest = [] then acc.dropLast ++ [""] else encodePathAux acc.dropLast rest)
    else encodePathAux (acc ++ [encSeg s]) rest

/-- Model of assigning a string to `URL.pathname` on a special-scheme URL
(all request URLs here are `http`).  The inputs produced by the encoder
always begin with a slash. -/
def encodePath (s : String) : String :=
  match strSplit1 '/' s with
  | [] => s
  | first :: rest =>
    if first = "" then "/" ++ strJoin1 '/' (encodePathAux [] rest)
    else strJoin1 '/' (encodePathAux [] (first :: rest))

/-! ### The two source regexes, hand-compiled to parsers

`PROCESSED_URL_REGEX` is
`^\/(?<registry>npm|github)\/(?<name>(?:@[\w-]+\/)?[\w.-]+)@(?<version>\d+\.\d+\.\d+(?:-[\w.-]+)?)\/(?<extra>[\w./ -]+)!!cdnv:.*$`
and `URL_REGEX` is
`^(\/?(?<registry>npm|github)\/)?(?<name>(?:@[\w-]+\/)?[\w.-]+)(?:@(?<version>[\w.-]+))?(\/?(?<extra>[\w./ -]+)?)$`.

Neither regex needs general backtracking on the inputs it is applied to:

* every repeated atom is a character class followed by a character outside
  that class (`[\w.-]+` before `@`, `\d+` before `.`, `[\w./ -]+` before
  `!`), so greedy matching is exact;
* the optional scope `(?:@[\w-]+\/)?` can be committed: when it fails the
  `name` atom must start at `@`, which is outside its class;
* the optional version `(?:@([\w.-]+))?` can be committed: when it is
  skipped the remaining input starts with `@`, which no later atom accepts;
* in `URL_REGEX`, shrinking a greedy class match only moves characters into
  a later atom whose class contains the earlier one, so it never turns a
  failure into a success;
* if the optional registry group of `URL_REGEX` matches but the remainder
  fails, the engine retries with the group unmatched; this is modelled by
  the explicit alternative in `urlExec`. -/

/-- Match a literal prefix, returning the rest. -/
def litL : List Char → List Char → Option (List Char)
  | [], s => some s
  | c :: cs, x :: xs => if x = c then litL cs xs else none
  | _ :: _, [] => none

structure PGroups where
  registry : String
  name : String
  version : String
  extra : String
deriving DecidableEq, Repr

/-- The optional scope `(?:@[\w-]+\/)?` shared by both regexes. -/
def scopeOpt (s : List Char) : Option (String × List Char) :=
  match s with
  | '@' :: s1 =>
    let (sc, s2) := s1.span scopeCh
    match s2 with
    | '/' :: s3 => if sc.isEmpty then none else some ("@" ++ String.mk sc ++ "/", s3)
    | _ => none
  | _ => some ("", s)

/-- `(?<registry>npm|github)\/`. -/
def registryLit (s : List Char) : Option (String × List Char) :=
  match litL "npm/".data s with
  | some r => some ("npm", r)
  | none =>
    match litL "github/".data s with
    | some r => some ("github", r)
    | none => none

/-- `(?<version>\d+\.\d+\.\d+(?:-[\w.-]+)?)` of the processed grammar. -/
def exactVersion (s : List Char) : Option (String × List Char) :=
  let (d1, s) := s.span Char.isDigit
  if d1.isEmpty then none else
  match s with
  | '.' :: s =>
    let (d2, s) := s.span Char.isDigit
    if d2.isEmpty then none else
    match s with
    | '.' :: s =>
      let (d3, s) := s.span Char.isDigit
      if d3.isEmpty then none else
      let (pre, s) :=
        match s with
        | '-' :: s1 =>
          let (pr, s2) := s1.span verCh
          if pr.isEmpty then ("", '-' :: s1) else ("-" ++ String.mk pr, s2)
        | _ => ("", s)
      some (String.mk d1 ++ "." ++ String.mk d2 ++ "." ++ String.mk d3 ++ pre, s)
    | _ => none
  | _ => none

/-- `PROCESSED_URL_REGEX.exec(pathname)`, returning the named groups. -/
def processedExec (p : String) : Option PGroups := do
  let s ← litL ['/'] p.data
  let (reg, s) ← registryLit s
  let (scope, s) ← scopeOpt s
  let (base, s) := s.span nameCh
  if base.isEmpty then none else do
  let s ← litL ['@'] s
  let (ver, s) ← exactVersion s
  let s ← litL ['/'] s
  let (extra, s) := s.span extraCh
  if extra.isEmpty then none else do
  let _ ← litL "!!cdnv:".data s
  pure ⟨reg, scope ++ String.mk base, ver, String.mk extra⟩

structure UGroups where
  registry : Option String
  name : String
  version : Option String
  extra : Option String
deriving DecidableEq, Repr

/-- The part of `URL_REGEX` after the optional registry group:
`name`, optional `@version`, `\/?`, optional `extra`, end anchor. -/
def urlRest (reg : Option String) (s : List Char) : Option UGroups := do
  let (scope, s) ← scopeOpt s
  let (base, s) := s.span nameCh
  if base.isEmpty then none else do
  let (ver, s) ←
    match s with
    | '@' :: s1 =>
      let (v, s2) := s1.span verCh
      if v.isEmpty then none else some (some (String.mk v), s2)
    | _ => some ((none : Option String), s)
  let s := match s with | '/' :: r => r | _ => s
  let (ex, s) := s.span extraCh
  if s.isEmpty then
    pure ⟨reg, scope ++ String.mk base, ver, if ex.isEmpty then none else some (String.mk ex)⟩
  else none

/-- The optional group `(\/?(npm|github)\/)?` with its greedy `\/?`. -/
def tryRegistry (s : List Char) : Option (String × List Char) :=
  match s with
  | '/' :: r => registryLit r
  | _ => registryLit s

/-- `URL_REGEX.exec(pathname)`, returning the named groups. -/
def urlExec (p : String) : Option UGroups :=
  match (do
    let (rg, rest) ← tryRegistry p.data
    urlRest (some rg) rest : Option UGroups) with
  | some g => some g
  | none => urlRest none p.data


/-! ### Data model -/

/-- A request URL, reduced to the parts the service reads: the pathname and
the query parameters (the origin never varies across a deployment).  JS
`URLSearchParams.get` returns the value of the first pair with the key. -/
structure MUrl where
  pathname : String
  query : List (String × String)
deriving DecidableEq, Repr

def getParam (q : List (String × String)) (k : String) : Option String :=
  (q.find? (fun p => p.1 = k)).map (fun p => p.2)

def hasParam (q : List (String × String)) (k : String) : Bool :=
  (getParam q k).isSome

/-- `URL.search`: empty, or a question mark followed by the joined pairs. -/
def searchOf (q : List (String × String)) : String :=
  if q.isEmpty then "" else "?" ++ strJoin1 '&' (q.map (fun p => p.1 ++ "=" ++ p.2))

/-- `URL.href` up to the constant origin. -/
def hrefOf (u : MUrl) : String := u.pathname ++ searchOf u.query

/-- A value inside an object-form `browser` manifest field. -/
inductive BVal
  | fls
  | nul
  | str (s : String)
deriving DecidableEq, Repr

/-- A legacy entry field value: a plain string or an object-form map. -/
inductive BrowserField
  | str (s : String)
  | map (entries : List (String × BVal))
deriving DecidableEq, Repr

/-- The slice of a package manifest the service reads.  `svelte` is present
exactly when the field exists with a string value; `hasExports` is the
truthiness of the `exports` field. -/
structure Manifest where
  name : String
  version : String
  svelte : Option String
  hasExports : Bool
  browser : Option BrowserField
  module : Option String
  main : Option String
deriving DecidableEq, Repr

/-- Outcome of the external `resolve.exports(pkg, subpath, ...)` call:
either a throw (caught by the source and fallen through) or a result whose
first element may be undefined. -/
inductive ExRes
  | thrown
  | res (v : Option String)
deriving DecidableEq, Repr

/-- A JS value as returned by `resolve_from_pkg`, before the caller wraps
it in `String(...)`. -/
inductive RVal
  | str (s : String)
  | undef
  | fls
  | nul
deriving DecidableEq, Repr

/-- JS `String(x)`. -/
def stringOfR : RVal → String
  | .str s => s
  | .undef => "undefined"
  | .fls => "false"
  | .nul => "null"

/-- The external world of the decoder: `pacote.manifest` (version
resolution; `none` models a rejected promise), `fetch_package_info` (full
manifest by name and exact version), the `resolve.exports` evaluator, and
`stat` (`none`: no such path, `some b`: exists, `b` reports a directory). -/
structure Env where
  pacote : String → Option String
  packument : String → String → Option Manifest
  exRes : Manifest → String → ExRes
  fs : String → Option Bool

/-! ### Subpath resolver (`resolve_from_pkg`) -/

/-- Modelled from the spec: `resolve.legacy(pkg, { fields: ['browser',
'module', 'main'] })` of the external `resolve.exports` library returns the
value of the first of those fields that is present (for `browser` this may
be an object-form map), or undefined. -/
def legacy_bmm (pkg : Manifest) : Option BrowserField :=
  match pkg.browser with
  | some b => some b
  | none =>
    match pkg.module with
    | some m => some (.str m)
    | none => pkg.main.map .str

/-- Modelled from the spec: `resolve.legacy(pkg, { fields: ['module',
'main'] })`. -/
def legacy_mm (pkg : Manifest) : Option String :=
  match pkg.module with
  | some m => some m
  | none => pkg.main

/-- Modelled from the spec: `resolve.legacy(pkg, { browser: subpath })`
looks `subpath` up in the object-form `browser` map and returns the mapped
value, or `subpath` unchanged when there is no mapping. -/
def legacyBrowserLookup (entries : List (String × BVal)) (subpath : String) : RVal :=
  match ((entries.find? (fun e => e.1 = subpath)).map Prod.snd : Option BVal) with
  | some (.str s) => .str s
  | some .fls => .fls
  | some .nul => .nul
  | none => .str subpath

/-- Replace the first occurrence of `pat` (JS `String.prototype.replace`
with a string pattern). -/
def replaceFirstAux (pat rep : List Char) : List Char → Option (List Char)
  | [] => none
  | x :: xs =>
    match litL pat (x :: xs) with
    | some rest => some (rep ++ rest)
    | none => (replaceFirstAux pat rep xs).map (x :: ·)

def strReplaceFirst (s pat rep : String) : String :=
  match replaceFirstAux pat.data rep.data s.data with
  | some r => ⟨r⟩
  | none => s

/-- The probe order of the last-ditch filesystem loop. -/
def probeSuffixes : List String := ["", ".mjs", ".js", "/index.mjs", "/index.js"]

/-- The last-ditch loop: `stat(path.join(base, subpath) + suffix)`; a
missing path or a directory falls through to the next suffix, a file is
returned relative to `base` with a `.` prefix. -/
def probeLoop (env : Env) (base subpath : String) : List String → Option RVal
  | [] => none
  | sfx :: rest =>
    let joined := pathJoin [base, subpath] ++ sfx
    match env.fs joined with
    | some false => some (.str ("." ++ strReplaceFirst joined base ""))
    | _ => probeLoop env base subpath rest

/-- Steps 4 to 6 of the resolver: filesystem probing, then the object-form
`browser` lookup, then the subpath unchanged. -/
def rfp_probe (env : Env) (pkg : Manifest) (subpath base : String) : RVal :=
  match probeLoop env base subpath probeSuffixes with
  | some r => r
  | none =>
    match pkg.browser with
    | some (.map m) => legacyBrowserLookup m subpath
    | _ => .str subpath

/-- Step 3 of the resolver (only for the root subpath): the legacy field
chain with the object-form special cases, mirroring lines 237 to 254 of the
source; for a non-root subpath, fall through to probing. -/
def lookupDot (m : List (String × BVal)) : Option BVal :=
  (m.find? (fun e => e.1 = ".")).map Prod.snd

/-- The inlined empty module returned for a literal `false` entry. -/
def emptyModuleDataUrl : String := "data:text/javascript,export \x7b\x7d"

/-- JS `x ?? y` result lifted to `RVal` for the legacy chain. -/
def rvalOfOptStr (o : Option String) : RVal :=
  match o with
  | some s => .str s
  | none => .undef

def rfp_legacy (env : Env) (pkg : Manifest) (subpath base : String) : RVal :=
  if subpath = "." then
    match legacy_bmm pkg with
    | some (.map m) =>
      match lookupDot m with
      | some .fls => .str emptyModuleDataUrl
      | some (.str s) => .str s
      | some .nul | none => rvalOfOptStr (legacy_mm pkg)
    | some (.str s) => .str s
    | none => .undef
  else rfp_probe env pkg subpath base

/-- `resolve_from_pkg(pkg, subpath, pkg_url_base)`: the legacy `svelte`
string field first, then `resolve.exports` (whose throw is caught and falls
through), then the legacy chain, probing, the `browser` map, and finally
the subpath itself. -/
def resolve_from_pkg_rest (env : Env) (pkg : Manifest) (subpath base : String) : RVal :=
  if pkg.hasExports then
    match env.exRes pkg subpath with
    | .res v =>
      match v with
      | some s => .str s
      | none => .undef
    | .thrown => rfp_legacy env pkg subpath base
  else rfp_legacy env pkg subpath base

def resolve_from_pkg (env : Env) (pkg : Manifest) (subpath base : String) : RVal :=
  match pkg.svelte with
  | some sv =>
    if subpath = "." then .str sv
    else resolve_from_pkg_rest env pkg subpath base
  | none => resolve_from_pkg_rest env pkg subpath base


/-! ### Flags: the `!!` tail codec and the `metadata` query flag -/

def BUILD_VERSION : String := "pre.1"
def PACKAGES_ROOT : String := "./packages"

/-- The recognized flag record (`reserved_flags` with `flag_aliases`
`svelte ↦ s`, `metadata ↦ md`).  A field is `some v` when the flag key is
present.  A tail entry `s` with no colon stores the JS value `undefined`
under the key; it is modelled as the string `"undefined"`, which is what
the encoder emits for it by interpolation.  (This coarsens one corner: the
real `undefined` is falsy in the compile guard `config.flags.svelte && ...`
of the orchestrator, while the modelled string is truthy; the corner is
reachable only from a hand-written tail entry `s` without a value and no
claim depends on it.) -/
structure Flags where
  svelte : Option String := none
  metadata : Option String := none
deriving DecidableEq, Repr

/-- The per-option decode of the `!!` tail: `option.split(':')` followed by
the reduce that keeps piece 0 as the key and concatenates all later pieces
(the colons are dropped); with a single piece the value stays undefined. -/
def parse_flag_option (opt : String) : String × Option String :=
  match strSplit1 ':' opt with
  | [] => ("", none)
  | k :: rest => (k, if rest.isEmpty then none else some (String.join rest))

/-- One iteration of the tail loop: `cdnv` is skipped, the two registered
aliases assign the recognized flag, anything else is dropped. -/
def applyFlagOption (fl : Flags) (opt : String) : Flags :=
  let kv := parse_flag_option opt
  if kv.1 = "cdnv" then fl
  else if kv.1 = "s" then { fl with svelte := some (kv.2.getD "undefined") }
  else if kv.1 = "md" then { fl with metadata := some (kv.2.getD "undefined") }
  else fl

/-- Decoding the flags from the part of the pathname after the first `!!`. -/
def parseFlagsTail (tail : String) : Flags :=
  (strSplit1 ';' tail).foldl applyFlagOption {}

/-- Character membership as a boolean. -/
def chHas (c : Char) : List Char → Bool
  | [] => false
  | x :: xs => x = c || chHas c xs

/-- Substring containment on character lists. -/
def chContains (pat : List Char) : List Char → Bool
  | [] => (litL pat []).isSome
  | x :: xs => (litL pat (x :: xs)).isSome || chContains pat xs

/-- `/(false|0|null)/.test(v)`: an unanchored JS regex test, i.e. substring
containment of one of the three literals. -/
def jsTestFalse0Null (v : String) : Bool :=
  chContains "false".data v.data || chContains "0".data v.data ||
    chContains "null".data v.data

/-- The `metadata` block of the decoder (lines 144 to 153): if the query
has the key, set the flag to `"1"`, then delete it again when the value is
truthy and the test matches. -/
def metadataStep (q : List (String × String)) (fl : Flags) : Flags :=
  if hasParam q "metadata" then
    let v := (getParam q "metadata").getD ""
    let fl := { fl with metadata := some "1" }
    if v ≠ "" then (if jsTestFalse0Null v then { fl with metadata := none } else fl)
    else fl
  else fl

/-- JS truthiness of a nullable string. -/
def jsTruthyOpt (o : Option String) : Bool :=
  match o with
  | some s => s ≠ ""
  | none => false

/-! ### The decoder (`resolve_config_from_url`) and the encoder
(`stringify_url_from_config`) -/

/-- The resolved request description returned by the decoder. -/
structure Config where
  registry : String
  name : String
  version : String
  subpath : String
  url : MUrl
  package_json : Manifest
  folder : String
  proj_id : String
  flags : Flags
deriving DecidableEq, Repr

/-- External effects of one request, in source order. -/
inductive Ev
  | pacoteManifest (spec : String)
  | fetchInfo (name ver : String)
  | mkdirEv (dir : String)
  | resolveSubpath
  | cacheGet (key : String)
  | installEv (name ver : String)
  | readFile (path : String)
  | compileSvelte
  | rewriteEv
  | cacheSet (key : String)
  | prefetch (href : String)
deriving DecidableEq, Repr

/-- The shared tail of `resolve_config_from_url`, from the `metadata` block
(line 144) to the returned config: version finalization, the full-manifest
fetch, directory creation and subpath resolution.  `nameOpt` is `none` when
neither grammar matched: the JS variable `name` is then `undefined`, which
stringifies to `"undefined"` inside the template literals of the registry
calls, while `path.join(folder, 'node_modules', name)` throws a `TypeError`
right before subpath resolution. -/
def resolveConfigTail (env : Env) (url : MUrl) (registry : String)
    (nameOpt : Option String) (semversion extra : String) (fl : Flags)
    (processed : Bool) (tr : List Ev) : List Ev × Except String Config :=
  let fl := metadataStep url.query fl
  let nameStr := nameOpt.getD "undefined"
  let tr := if processed then tr else tr ++ [.pacoteManifest (nameStr ++ "@" ++ semversion)]
  match (if processed then some semversion else env.pacote (nameStr ++ "@" ++ semversion)) with
  | none => (tr, .error "VersionUnresolvable")
  | some final_version =>
    let tr := tr ++ [.fetchInfo nameStr final_version]
    match env.packument nameStr final_version with
    | none => (tr, .error "FetchFailed")
    | some pkg =>
      let proj_id := pkg.name ++ "@" ++ pkg.version
      let folder := PACKAGES_ROOT ++ "/" ++ proj_id
      let tr := tr ++ [.mkdirEv folder]
      match nameOpt with
      | none => (tr, .error "TypeError")
      | some nm =>
        let tr := tr ++ [.resolveSubpath]
        let base := pathJoin [folder, "node_modules", nm]
        let subpath := stringOfR (resolve_from_pkg env pkg extra base)
        (tr, .ok { registry := registry, name := nm, version := final_version,
                   subpath := subpath, url := url, package_json := pkg,
                   folder := folder, proj_id := proj_id, flags := fl })

/-- `resolve_config_from_url`, instrumented with the list of external
effects it performs.  The processed branch takes all groups from the
canonical grammar and the flags from the `!!` tail; the raw branch takes
the groups from the raw grammar (with the destructuring defaults) and may
resolve a component-compiler version first. -/
def resolve_config_from_url (env : Env) (url : MUrl) :
    List Ev × Except String Config :=
  match processedExec url.pathname with
  | some g =>
    let tailStr := (strSplitStr "!!" url.pathname).getD 1 ""
    let fl := parseFlagsTail tailStr
    resolveConfigTail env url g.registry (some g.name) g.version g.extra fl true []
  | none =>
    let gr :=
      match urlExec url.pathname with
      | some g => (g.registry.getD "npm", some g.name, g.version.getD "latest", g.extra.getD ".")
      | none => ("npm", (none : Option String), "latest", ".")
    let svelte_flag := getParam url.query "svelte"
    if strEndsWith url.pathname ".svelte" || jsTruthyOpt svelte_flag then
      let spec := "svelte@" ++ (if jsTruthyOpt svelte_flag then svelte_flag.getD "" else "4")
      let tr := [Ev.pacoteManifest spec]
      match env.pacote spec with
      | none => (tr, .error "VersionUnresolvable")
      | some sv =>
        resolveConfigTail env url gr.1 gr.2.1 gr.2.2.1 gr.2.2.2 { svelte := some sv } false tr
    else
      resolveConfigTail env url gr.1 gr.2.1 gr.2.2.1 gr.2.2.2 {} false []

/-- The value part of the decoder. -/
def resolveConfigR (env : Env) (url : MUrl) : Except String Config :=
  (resolve_config_from_url env url).2

/-- The `alias:value` pairs the encoder pushes: one for each recognized
flag whose key is present (`Object.entries` skips absent keys, and the
`value === null` guard never fires because the stored values are strings;
the pair order is irrelevant because the array is sorted before joining). -/
def flagPairs (fl : Flags) : List String :=
  (match fl.svelte with | some v => ["s:" ++ v] | none => []) ++
  (match fl.metadata with | some v => ["md:" ++ v] | none => [])

/-- JS default array sort: lexicographic on code units. -/
def chLt : List Char → List Char → Bool
  | [], [] => false
  | [], _ :: _ => true
  | _ :: _, [] => false
  | a :: as, b :: bs =>
    if a.val.toNat < b.val.toNat then true
    else if b.val.toNat < a.val.toNat then false
    else chLt as bs

def jsLt (a b : String) : Bool := chLt a.data b.data

def insertSorted (x : String) : List String → List String
  | [] => [x]
  | y :: ys => if jsLt x y then x :: y :: ys else y :: insertSorted x ys

def sortStrings (l : List String) : List String := l.foldr insertSorted []

/-- The `!!` tail the encoder appends:
`'cdnv:' + BUILD_VERSION + ';' + flag_str_arr.toSorted().join(';')`. -/
def buildTail (fl : Flags) : String :=
  "cdnv:" ++ BUILD_VERSION ++ ";" ++ strJoin1 ';' (sortStrings (flagPairs fl))

def reservedFlagNames : List String := ["svelte", "metadata"]

/-- `stringify_url_from_config`: delete the recognized flags from the
query, rebuild the pathname from registry, `name@version` joined with the
subpath — with the residual search string interpolated into the pathname,
where the WHATWG setter percent-encodes it — then append the flag tail. -/
def stringify (cfg : Config) : MUrl :=
  let q := cfg.url.query.filter (fun p => !reservedFlagNames.contains p.1)
  let search := searchOf q
  let p1 := encodePath ("/" ++ cfg.registry ++ "/" ++
    pathJoin [cfg.name ++ "@" ++ cfg.version, cfg.subpath] ++ search)
  let p2 := encodePath (p1 ++ "!!" ++ buildTail cfg.flags)
  { pathname := p2, query := q }

/-- One canonicalization pass: decode, then encode. -/
def canonicalize (env : Env) (url : MUrl) : Except String MUrl :=
  (resolveConfigR env url).map stringify


/-! ### Installer (`InstallQueue.add`) interleaving model -/

/-- Shared state of one `packages/<name>@<version>/` directory: whether the
lockfile (`bun.lockb`) is present, and how many package-manager invocations
have run. -/
structure InstState where
  lockb : Bool
  installs : Nat
deriving DecidableEq, Repr

/-- Program counter of one `InstallQueue.add` caller for a fixed
`(name, version)`.  The await points of the source split the body into
`mkdir` (pc 0), the `readdir` lockfile check (pc 1), the synthesized
manifest write (pc 2) and the `bun install` subprocess (pc 3, whose
completion writes the lockfile); pc 4 is the returned state.  A caller
whose check sees the lockfile returns directly. -/
def instStep (st : InstState) (pc : Nat) : InstState × Nat :=
  match pc with
  | 0 => (st, 1)
  | 1 => if st.lockb then (st, 4) else (st, 2)
  | 2 => (st, 3)
  | 3 => ({ lockb := true, installs := st.installs + 1 }, 4)
  | n => (st, n)

/-- Run two concurrent `add` callers for the same `(name, version)` under a
schedule: `false` steps caller A, `true` steps caller B; a step of a
finished caller does nothing. -/
def instRun (st : InstState) (pcA pcB : Nat) : List Bool → InstState × Nat × Nat
  | [] => (st, pcA, pcB)
  | b :: rest =>
    if b then
      let s' := instStep st pcB
      instRun s'.1 pcA s'.2 rest
    else
      let s' := instStep st pcA
      instRun s'.1 s'.2 pcB rest

/-! ### The import-rewriting section of `compile_url` -/

/-- One pending `MagicString.overwrite`: a character range and its
replacement. -/
structure Edit where
  start : Nat
  stop : Nat
  repl : String
deriving DecidableEq, Repr

/-- The single-quote character (the replacement wraps the canonical path in
quotes). -/
def quoteCh : Char := Char.ofNat 39

def insertEdit (e : Edit) : List Edit → List Edit
  | [] => [e]
  | x :: xs => if e.start < x.start then e :: x :: xs else x :: insertEdit e xs

def sortEdits (l : List Edit) : List Edit := l.foldr insertEdit []

/-- Apply edits sorted by start position to the character suffix beginning
at `pos` (`MagicString.toString`; the walker ranges are disjoint). -/
def applyEditsSorted : List Char → Nat → List Edit → List Char
  | chars, _, [] => chars
  | chars, pos, e :: rest =>
    chars.take (e.start - pos) ++ e.repl.data ++
      applyEditsSorted (chars.drop (e.stop - pos)) e.stop rest

def applyEdits (src : String) (edits : List Edit) : String :=
  ⟨applyEditsSorted src.data 0 (sortEdits edits)⟩

/-- The specifier loop (lines 389 to 452).  `resolveSpec` abstracts the
body that canonicalizes one specifier — the relative branch and the bare
branch, either of which can throw (name extraction, registry resolution,
the recursive decode).  On success the canonical path is recorded as a
prefetch target (a JS `Set`, hence the dedup) and one overwrite per range
is accumulated; the accumulated edits only become visible through
`ms.toString()` after the loop, so a throw anywhere in the loop abandons
every edit while keeping the prefetch targets collected so far. -/
def rewriteLoop (resolveSpec : String → Except String String) (src : String) :
    List (String × List (Nat × Nat)) → List Edit → List String → String × List String
  | [], edits, pre => (applyEdits src edits, pre)
  | (sp, locs) :: rest, edits, pre =>
    match resolveSpec sp with
    | .error _ => (src, pre)
    | .ok fp =>
      let pre := if pre.contains fp then pre else pre ++ [fp]
      let edits := edits ++ locs.map (fun l =>
        ⟨l.1, l.2, String.singleton quoteCh ++ fp ++ String.singleton quoteCh⟩)
      rewriteLoop resolveSpec src rest edits pre

/-- The whole guarded rewrite section: a parse failure returns the text
untransformed with no prefetch targets. -/
def rewriteModel (parseOk : Bool) (resolveSpec : String → Except String String)
    (specs : List (String × List (Nat × Nat))) (src : String) : String × List String :=
  if parseOk then rewriteLoop resolveSpec src specs [] [] else (src, [])

/-! ### The orchestrator (`compile_url`) -/

/-- The environment of one `compile_url` run: the decoder environment plus
the cache, the installer and file outcomes, and the parsed specifier map
with its per-specifier resolver. -/
structure CEnv extends Env where
  cache : String → Option String
  installThrows : Bool
  file : String → Option String
  parseOk : Bool
  specs : List (String × List (Nat × Nat))
  resolveSpec : String → Except String String
  compileResult : String → Option String

inductive Outcome
  | noop204
  | redirect307 (loc : String)
  | hit200 (body : String)
  | ok200 (body : String)
  | thrown (e : String)
deriving DecidableEq, Repr

structure CResult where
  trace : List Ev
  outcome : Outcome
  inflight : List String
deriving DecidableEq, Repr

/-- JS `Set.prototype.add` on the insertion-ordered list model. -/
def insertOnce (l : List String) (x : String) : List String :=
  if l.contains x then l else l ++ [x]

/-- `compile_url(request, follow_up)`, with the process-wide in-flight URL
set threaded explicitly and the external effects recorded in source order.
The recursive prefetch calls fired on the success path are recorded as
`prefetch` events.  Note the source deletes the canonical href from the
in-flight set only on the cache-hit path (line 309) and on the successful
build path (line 461): the redirect return and a thrown error leave the set
unchanged. -/
def compile_url (env : CEnv) (follow_up : Bool) (inflight : List String)
    (requrl : MUrl) : CResult :=
  if inflight.contains (hrefOf requrl) && follow_up then
    { trace := [], outcome := .noop204, inflight := inflight }
  else
    match resolve_config_from_url env.toEnv requrl with
    | (tr, .error e) => { trace := tr, outcome := .thrown e, inflight := inflight }
    | (tr, .ok cfg) =>
      let resolved := stringify cfg
      let inflight1 := insertOnce inflight (hrefOf resolved)
      if requrl.pathname ≠ resolved.pathname then
        { trace := tr, outcome := .redirect307 (hrefOf resolved), inflight := inflight1 }
      else
        let tr := tr ++ [.cacheGet resolved.pathname]
        match env.cache resolved.pathname with
        | some hit =>
          { trace := tr, outcome := .hit200 hit,
            inflight := inflight1.erase (hrefOf resolved) }
        | none =>
          let tr := tr ++ [.installEv cfg.name cfg.version]
          if env.installThrows then
            { trace := tr, outcome := .thrown "InstallFailed", inflight := inflight1 }
          else
            let full_path := pathJoin [cfg.folder, "node_modules", cfg.name, cfg.subpath]
            let tr := tr ++ [.readFile full_path]
            match env.file full_path with
            | none => { trace := tr, outcome := .thrown "FileNotFound", inflight := inflight1 }
            | some content =>
              let step1 :=
                if jsTruthyOpt cfg.flags.svelte && strEndsWith full_path ".svelte" then
                  (tr ++ [Ev.compileSvelte], (env.compileResult content).getD content)
                else (tr, content)
              let step2 :=
                if strEndsWith full_path ".d.ts" then (step1.1, step1.2, ([] : List String))
                else
                  let r := rewriteModel env.parseOk env.resolveSpec env.specs step1.2
                  (step1.1 ++ [Ev.rewriteEv], r.1, r.2)
              let tr := step2.1 ++ [.cacheSet resolved.pathname]
              let inflight2 := inflight1.erase (hrefOf resolved)
              let tr := tr ++ step2.2.2.map Ev.prefetch
              { trace := tr, outcome := .ok200 step2.2.1, inflight := inflight2 }


/-! ### Claim-support definitions -/

/-- Delete every colon of a string. -/
def removeColons (s : String) : String := ⟨s.data.filter (fun c => c ≠ ':')⟩

/-- Nondecreasing in the JS sort order. -/
def strSortedB : List String → Bool
  | [] => true
  | [_] => true
  | x :: y :: r => !jsLt y x && strSortedB (y :: r)

/-- The tail the C7 claim describes, written from the claim for comparison
with `buildTail`: `cdnv:<build>` followed by one `;alias:value` per present
flag, the whole list sorted. -/
def claimTail (fl : Flags) : String :=
  strJoin1 ';' (("cdnv:" ++ BUILD_VERSION) :: sortStrings (flagPairs fl))

def optNoSemi (o : Option String) : Bool :=
  match o with
  | some v => !chHas ';' v.data
  | none => true

/-- All edits of a fully successful rewrite pass, in loop order. -/
def rewriteEditsAll (res : String → Except String String)
    (specs : List (String × List (Nat × Nat))) : List Edit :=
  (specs.map fun p =>
    match res p.1 with
    | .ok fp => p.2.map (fun l =>
        (⟨l.1, l.2, String.singleton quoteCh ++ fp ++ String.singleton quoteCh⟩ : Edit))
    | .error _ => []).flatten

def isReadEv : Ev → Bool
  | .readFile _ => true
  | _ => false

/-- The steps a cache hit skips (everything after the cache lookup on the
miss path). -/
def isSkipEv : Ev → Bool
  | .installEv _ _ => true
  | .readFile _ => true
  | .compileSvelte => true
  | .rewriteEv => true
  | .cacheSet _ => true
  | .prefetch _ => true
  | _ => false

/-! ### Concrete instances used by the counterexamples and witnesses -/

/-- A minimal manifest in the style of `left-pad`: no `exports`, no
`browser`, a string `main`. -/
def mlp : Manifest :=
  { name := "lp", version := "1.3.0", svelte := none, hasExports := false,
    browser := none, module := none, main := some "index.js" }

/-- A registry that knows exactly `lp@1.3.0`, with nothing installed on
disk yet. -/
def env_lp : Env :=
  { pacote := fun spec => if spec = "lp@1.3.0" then some "1.3.0" else none,
    packument := fun n v => if n = "lp" && v = "1.3.0" then some mlp else none,
    exRes := fun _ _ => .thrown,
    fs := fun _ => none }

def u_lp : MUrl := ⟨"/npm/lp@1.3.0/", []⟩

/-- The canonical URL of `u_lp` under `env_lp`. -/
def c_lp : MUrl := ⟨"/npm/lp@1.3.0/index.js!!cdnv:pre.1;", []⟩

/-- The config `env_lp` decodes from `u_lp`. -/
def cfg_lp : Config :=
  { registry := "npm", name := "lp", version := "1.3.0", subpath := "index.js",
    url := u_lp, package_json := mlp, folder := "./packages/lp@1.3.0",
    proj_id := "lp@1.3.0", flags := {} }

/-- A manifest whose object-form `browser` maps the root subpath to a
literal `false` (spec scenario 5). -/
def mfb : Manifest :=
  { name := "fb", version := "1.0.0", svelte := none, hasExports := false,
    browser := some (.map [(".", .fls)]), module := none, main := none }

def env_fb : Env :=
  { pacote := fun spec => if spec = "fb@1.0.0" then some "1.0.0" else none,
    packument := fun n v => if n = "fb" && v = "1.0.0" then some mfb else none,
    exRes := fun _ _ => .thrown,
    fs := fun _ => none }

def u_fb : MUrl := ⟨"/npm/fb@1.0.0/", []⟩

/-- The canonical URL of `u_fb` under `env_fb`: the resolved subpath is the
`data:` empty-module URL, whose space and braces the pathname setter
percent-encodes. -/
def c_fb : MUrl :=
  ⟨"/npm/fb@1.0.0/data:text/javascript,export%20%7B%7D!!cdnv:pre.1;", []⟩

/-- A registry that additionally resolves the literal package name
`undefined` (such a package exists on the real npm registry): used to show
the second canonicalization of the `data:`-subpath URL throws regardless,
since with no grammar match the JS `name` variable is `undefined` and
`path.join(folder, 'node_modules', name)` raises a `TypeError`. -/
def env_fb2 : Env :=
  { env_fb with
    pacote := fun spec =>
      if spec = "fb@1.0.0" then some "1.0.0"
      else if spec = "undefined@latest" then some "1.0.0" else none,
    packument := fun n v =>
      if n = "fb" && v = "1.0.0" then some mfb
      else if n = "undefined" && v = "1.0.0" then
        some { name := "undefined", version := "1.0.0", svelte := none,
               hasExports := false, browser := none, module := none,
               main := some "index.js" }
      else none }

/-- An orchestrator environment over `env_lp` with an empty cache and all
files readable. -/
def cenv_lp : CEnv :=
  { toEnv := env_lp,
    cache := fun _ => none,
    installThrows := false,
    file := fun _ => some "module.exports = 1;",
    parseOk := true, specs := [], resolveSpec := fun _ => .error "unused",
    compileResult := fun _ => none }

/-- The same environment with a cache entry for the canonical path. -/
def cenv_hit : CEnv :=
  { cenv_lp with
    cache := fun k => if k = c_lp.pathname then some "cached" else none }

/-- A resolver for the rewrite counterexample: the first specifier
canonicalizes, the second throws. -/
def c2res : String → Except String String := fun sp =>
  if sp = "./a.js" then .ok "/npm/x@1.0.0/a.js!!cdnv:pre.1;"
  else .error "ResolverStepFailure"

def c2src : String := "import x from \"./a.js\";import y from \"zzz\";"

/-- The specifier map the walker collects from `c2src` (ranges include the
quotes, as acorn reports for string literals). -/
def c2specs : List (String × List (Nat × Nat)) := [("./a.js", [(14, 22)]), ("zzz", [(37, 42)])]

/-- The request of the C8 witness: a raw URL with `?metadata=yes`. -/
def u_md : MUrl := ⟨"/npm/lp@1.3.0/", [("metadata", "yes")]⟩

/-- The config `env_lp` decodes from `u_md`. -/
def cfg_md : Config :=
  { cfg_lp with url := u_md, flags := { metadata := some "1" } }

/-- The config `env_lp` decodes from the canonical URL `c_lp` itself. -/
def cfg_lp_c : Config :=
  { cfg_lp with url := c_lp }


/-- A manifest carrying both a string `svelte` field and an `exports` map
(for the C5 witness). -/
def pkg_c5 : Manifest :=
  { name := "sv", version := "1.0.0", svelte := some "./src/App.svelte",
    hasExports := true, browser := some (.str "./browser.js"),
    module := some "./m.js", main := some "./index.js" }

/-- An environment whose `exports` evaluation resolves everything and whose
filesystem has every file (so every later resolver step would succeed, and
differently). -/
def env_c5 : Env :=
  { pacote := fun _ => none, packument := fun _ _ => none,
    exRes := fun _ _ => .res (some "./from-exports.js"),
    fs := fun _ => some false }

/-- A manifest whose object-form `browser` has no `"."` entry but whose
`module` field is set (for the C6 witness). -/
def pkg_c6b : Manifest :=
  { name := "c6b", version := "1.0.0", svelte := none, hasExports := false,
    browser := some (.map [("x", .str "y")]), module := some "./m.js",
    main := some "./index.js" }

/-! ## Theorems -/

/-! ### C5: the legacy `svelte` string field takes precedence -/

/-- C5: for every manifest whose `svelte` field is a string, and the root
subpath `"."`, the subpath resolver returns the `svelte` field value.  The
environment — including the `exports` evaluator — and all remaining
manifest fields are universally quantified, so the result does not depend
on the `exports` map or on any later resolution step. -/
theorem c5_svelte_field_precedence (env : Env) (pkg : Manifest) (base sv : String)
    (h : pkg.svelte = some sv) :
    resolve_from_pkg env pkg "." base = .str sv := by
  simp [resolve_from_pkg, h]

/-- C5 witness: a manifest carrying both a `svelte` field and an `exports`
map that would resolve elsewhere, in an environment where every resolver
step could succeed. -/
theorem c5_svelte_field_precedence_witness :
    resolve_from_pkg env_c5 pkg_c5 "." "base" = .str "./src/App.svelte" :=
  c5_svelte_field_precedence env_c5 pkg_c5 "base" "./src/App.svelte" rfl

/-! ### C6: the literal `false` browser entry -/

/-- C6: with no string `svelte` field and no matching `exports` entry (no
`exports` at all, or an evaluation that throws), when the legacy chain over
`browser`, `module`, `main` yields an object-form map, a literal `false`
at `"."` produces exactly the inlined empty-module data URL, while a
missing or null `"."` entry falls back to the `module` then `main`
fields. -/
theorem c6_false_browser_entry (env : Env) (pkg : Manifest) (base : String)
    (m : List (String × BVal))
    (hsv : pkg.svelte = none)
    (hex : pkg.hasExports = false ∨ env.exRes pkg "." = .thrown)
    (hm : legacy_bmm pkg = some (.map m)) :
    (lookupDot m = some .fls →
      resolve_from_pkg env pkg "." base = .str emptyModuleDataUrl) ∧
    ((lookupDot m = none ∨ lookupDot m = some .nul) →
      resolve_from_pkg env pkg "." base = rvalOfOptStr (legacy_mm pkg)) := by
  have hrest : resolve_from_pkg env pkg "." base = rfp_legacy env pkg "." base := by
    rcases hex with hex | hex <;>
      simp [resolve_from_pkg, resolve_from_pkg_rest, hsv, hex]
  refine ⟨fun hd => ?_, fun hd => ?_⟩
  · simp [hrest, rfp_legacy, hm, hd]
  · rcases hd with hd | hd <;> simp [hrest, rfp_legacy, hm, hd]

/-- C6 witness: the `false` entry yields the data URL; the map without a
`"."` entry falls back to `module`. -/
theorem c6_false_browser_entry_witness :
    resolve_from_pkg env_fb mfb "." "b" = .str emptyModuleDataUrl ∧
    resolve_from_pkg env_fb pkg_c6b "." "b" = .str "./m.js" := by
  constructor
  · exact (c6_false_browser_entry env_fb mfb "b" [(".", .fls)] rfl (Or.inl rfl) rfl).1 rfl
  · have h := (c6_false_browser_entry env_fb pkg_c6b "b" [("x", BVal.str "y")] rfl
      (Or.inl rfl) rfl).2 (Or.inl rfl)
    simpa [rvalOfOptStr, legacy_mm, pkg_c6b] using h

/-! ### C3: the installer has no single-flight coalescing -/

/-- Once the lockfile is present, a step of a caller that has not yet
passed the lockfile check changes nothing. -/
theorem instStep_locked (st : InstState) (pc : Nat) (hl : st.lockb = true)
    (h2 : pc ≠ 2) (h3 : pc ≠ 3) :
    (instStep st pc).1 = st ∧ (instStep st pc).2 ≠ 2 ∧ (instStep st pc).2 ≠ 3 := by
  match pc, h2, h3 with
  | 0, _, _ => simp [instStep]
  | 1, _, _ => simp [instStep, hl]
  | (n + 4), _, _ => simp [instStep]

/-- Once the lockfile is present, a pair of `add` callers that have not yet
reached the write or install step leave the state untouched under every
schedule. -/
theorem instRun_locked (sched : List Bool) (st : InstState) (pcA pcB : Nat)
    (hl : st.lockb = true) (hA2 : pcA ≠ 2) (hA3 : pcA ≠ 3)
    (hB2 : pcB ≠ 2) (hB3 : pcB ≠ 3) :
    (instRun st pcA pcB sched).1 = st := by
  induction sched generalizing st pcA pcB with
  | nil => rfl
  | cons b rest ih =>
    cases b with
    | true =>
      have h := instStep_locked st pcB hl hB2 hB3
      simp only [instRun, if_pos]
      rw [h.1]
      exact ih st pcA (instStep st pcB).2 hl hA2 hA3 h.2.1 h.2.2
    | false =>
      have h := instStep_locked st pcA hl hA2 hA3
      simp only [instRun, if_neg]
      rw [h.1]
      exact ih st (instStep st pcA).2 pcB hl h.2.1 h.2.2 hB2 hB3

/-- C3 counterexample: two concurrent `add` callers for the same
`(name, version)`, both passing the lockfile check before either install
completes, each run their own package-manager invocation — two
installations for one `(name, version)` in one process, refuting the
at-most-one claim. -/
theorem c3_counterexample :
    (instRun ⟨false, 0⟩ 0 0
      [false, true, false, true, false, true, false, true]).1.installs = 2 := by
  decide

/-- C3 amended: only a completed installation is not repeated — with the
lockfile present no schedule performs any installation, and a sequential
pair of callers installs exactly once — but in-flight installations are not
coalesced (see the counterexample). -/
theorem c3_amended :
    (∀ sched : List Bool, (instRun ⟨true, 0⟩ 0 0 sched).1.installs = 0) ∧
    (instRun ⟨false, 0⟩ 0 0
      [false, false, false, false, true, true, true, true]).1.installs = 1 := by
  constructor
  · intro sched
    rw [instRun_locked sched ⟨true, 0⟩ 0 0 rfl (by decide) (by decide) (by decide) (by decide)]
  · decide

/-! ### C2: one failing specifier aborts the whole rewrite -/

/-- If any specifier of the map fails to resolve, the `try` around the loop
catches the throw before `ms.toString()` runs: the emitted text is the
untransformed source. -/
theorem rewriteLoop_fail (res : String → Except String String) (src : String)
    (specs : List (String × List (Nat × Nat))) (edits : List Edit) (pre : List String)
    (h : specs.any (fun p => !(res p.1).isOk) = true) :
    (rewriteLoop res src specs edits pre).1 = src := by
  induction specs generalizing edits pre with
  | nil => simp at h
  | cons p rest ih =>
    obtain ⟨sp, locs⟩ := p
    simp only [List.any_cons, Bool.or_eq_true] at h
    match hr : res sp with
    | .error e => simp [rewriteLoop, hr]
    | .ok fp =>
      rcases h with h | h
      · rw [hr] at h; simp [Except.isOk, Except.toBool] at h
      · simp only [rewriteLoop, hr]
        exact ih _ _ h

/-- When every specifier resolves, the loop accumulates one overwrite per
recorded range and applies them all. -/
theorem rewriteLoop_ok (res : String → Except String String) (src : String)
    (specs : List (String × List (Nat × Nat))) (edits : List Edit) (pre : List String)
    (h : ∀ p ∈ specs, (res p.1).isOk = true) :
    (rewriteLoop res src specs edits pre).1 =
      applyEdits src (edits ++ rewriteEditsAll res specs) := by
  induction specs generalizing edits pre with
  | nil => simp [rewriteLoop, rewriteEditsAll]
  | cons p rest ih =>
    obtain ⟨sp, locs⟩ := p
    have hp := h (sp, locs) (List.mem_cons_self _ _)
    match hr : res sp with
    | .error e => rw [hr] at hp; simp [Except.isOk, Except.toBool] at hp
    | .ok fp =>
      simp only [rewriteLoop, hr]
      rw [ih _ _ (fun q hq => h q (List.mem_cons_of_mem _ hq))]
      simp [rewriteEditsAll, hr, List.append_assoc]

/-- C2 amended: a specifier whose canonicalization fails aborts rewriting
of the entire file — the source is emitted with no specifier rewritten,
successful edits included — while a file whose specifiers all resolve has
every recorded range overwritten. -/
theorem c2_failure_aborts_whole_rewrite (res : String → Except String String)
    (specs : List (String × List (Nat × Nat))) (src : String) :
    (specs.any (fun p => !(res p.1).isOk) = true →
      (rewriteModel true res specs src).1 = src) ∧
    ((∀ p ∈ specs, (res p.1).isOk = true) →
      (rewriteModel true res specs src).1 = applyEdits src (rewriteEditsAll res specs)) := by
  constructor
  · intro h
    simpa [rewriteModel] using rewriteLoop_fail res src specs [] [] h
  · intro h
    simpa [rewriteModel] using rewriteLoop_ok res src specs [] [] h

/-- C2 witness: with the second of two specifiers failing, the first is
not rewritten either; with the failing specifier absent, the first is
rewritten. -/
theorem c2_failure_aborts_whole_rewrite_witness :
    (rewriteModel true c2res c2specs c2src).1 = c2src ∧
    (rewriteModel true c2res [("./a.js", [(14, 22)])] c2src).1 =
      applyEdits c2src (rewriteEditsAll c2res [("./a.js", [(14, 22)])]) :=
  ⟨(c2_failure_aborts_whole_rewrite c2res c2specs c2src).1 (by decide),
   (c2_failure_aborts_whole_rewrite c2res [("./a.js", [(14, 22)])] c2src).2 (by decide)⟩

/-- C2 counterexample: in `c2src` the specifier `./a.js` resolves and
`zzz` fails; the emitted text is the whole untransformed source — the
successfully resolved `./a.js` occurrence included — whereas the claim
requires every other specifier to be rewritten (second conjunct: the
rewrite of `./a.js` alone does change the text). -/
theorem c2_counterexample :
    rewriteModel true c2res c2specs c2src =
      (c2src, ["/npm/x@1.0.0/a.js!!cdnv:pre.1;"]) ∧
    applyEdits c2src (rewriteEditsAll c2res [("./a.js", [(14, 22)])]) ≠ c2src := by
  constructor <;> decide


/-! ### Split and join helper lemmas -/

theorem str_eq_of_data (a b : String) (h : a.data = b.data) : a = b := by
  cases a; cases b; exact congrArg String.mk h

theorem chSplit1_ne_nil (c : Char) (l : List Char) : chSplit1 c l ≠ [] := by
  cases l with
  | nil => simp [chSplit1]
  | cons x xs =>
    simp only [chSplit1]
    by_cases hx : x = c
    · simp [hx]
    · simp only [if_neg hx]
      cases chSplit1 c xs <;> simp

theorem chHas_eq_false_iff (c : Char) (l : List Char) :
    chHas c l = false ↔ ∀ x ∈ l, x ≠ c := by
  induction l with
  | nil => simp [chHas]
  | cons x xs ih => simp [chHas, ih]

theorem chSplit1_no (c : Char) (l : List Char) (h : chHas c l = false) :
    chSplit1 c l = [l] := by
  induction l with
  | nil => rfl
  | cons x xs ih =>
    simp only [chHas, Bool.or_eq_false_iff] at h
    have hx : ¬x = c := by simpa using h.1
    simp only [chSplit1, if_neg hx, ih h.2]

theorem chSplit1_sep (c : Char) (a b : List Char) (h : chHas c a = false) :
    chSplit1 c (a ++ c :: b) = a :: chSplit1 c b := by
  induction a with
  | nil => simp [chSplit1]
  | cons x xs ih =>
    simp only [chHas, Bool.or_eq_false_iff] at h
    have hx : ¬x = c := by simpa using h.1
    simp only [List.cons_append, chSplit1, if_neg hx]
    rw [show xs.append (c :: b) = xs ++ c :: b from rfl, ih h.2]

theorem chSplit1_flatten (c : Char) (l : List Char) :
    (chSplit1 c l).flatten = l.filter (fun x => x ≠ c) := by
  induction l with
  | nil => simp [chSplit1]
  | cons x xs ih =>
    by_cases hx : x = c
    · subst hx
      simp [chSplit1, ih]
    · simp only [chSplit1, if_neg hx]
      rcases hsp : chSplit1 c xs with _ | ⟨hd, t⟩
      · exact absurd hsp (chSplit1_ne_nil c xs)
      · rw [hsp] at ih
        simp only [List.filter_cons, decide_eq_true_eq]
        rw [if_pos hx, ← ih]
        simp

theorem strFoldlAppend_data (ls : List String) (acc : String) :
    (ls.foldl (fun r s => r ++ s) acc).data = acc.data ++ (ls.map String.data).flatten := by
  induction ls generalizing acc with
  | nil => simp
  | cons x xs ih => simp [List.foldl_cons, ih]

theorem strJoin_map_mk_data (ls : List (List Char)) :
    (String.join (ls.map fun l => (⟨l⟩ : String))).data = ls.flatten := by
  simp only [String.join, strFoldlAppend_data, List.map_map]
  have h1 : (String.data ∘ fun l => (⟨l⟩ : String)) = id := rfl
  simp [h1]

/-! ### C9: colon handling in the tail decoder -/

/-- C9: for a tail entry `alias:value`, the decoder returns the alias and
the value reassembled from its colon-separated pieces with the colons
deleted; the value round-trips exactly when it contains no colon, so
encoding then decoding a flag value containing a colon is lossy. -/
theorem c9_tail_value_colons_lossy (k v : String) (hk : chHas ':' k.data = false) :
    parse_flag_option (k ++ ":" ++ v) = (k, some (removeColons v)) ∧
    (removeColons v = v ↔ chHas ':' v.data = false) := by
  constructor
  · have hd : (k ++ ":" ++ v).data = k.data ++ ':' :: v.data := by
      show (k.data ++ [':']) ++ v.data = k.data ++ ':' :: v.data
      simp
    unfold parse_flag_option strSplit1
    rw [hd, chSplit1_sep _ _ _ hk]
    have hne : ((chSplit1 ':' v.data).map fun l => (⟨l⟩ : String)) ≠ [] := by
      intro hcon
      exact chSplit1_ne_nil ':' v.data (by simpa using hcon)
    rcases hsp : (chSplit1 ':' v.data).map (fun l => (⟨l⟩ : String)) with _ | ⟨hd1, t1⟩
    · exact absurd hsp hne
    · simp only [List.map_cons, hsp]
      have hjoin : String.join (hd1 :: t1) = removeColons v := by
        apply str_eq_of_data
        rw [← hsp, strJoin_map_mk_data, chSplit1_flatten]
        rfl
      simp [hjoin]
  · constructor
    · intro h
      have hdata : v.data.filter (fun x => x ≠ ':') = v.data := congrArg String.data h
      rw [chHas_eq_false_iff]
      intro x hx
      have := List.filter_eq_self.mp hdata x hx
      simpa using this
    · intro h
      apply str_eq_of_data
      show v.data.filter (fun x => x ≠ ':') = v.data
      rw [List.filter_eq_self]
      intro a ha
      have := (chHas_eq_false_iff ':' v.data).mp h a ha
      simpa using this

/-- C9 witness: the value `a:b` decodes to `ab`. -/
theorem c9_tail_value_colons_lossy_witness :
    parse_flag_option ("s" ++ ":" ++ "a:b") = ("s", some (removeColons "a:b")) ∧
    removeColons "a:b" ≠ "a:b" := by
  have h := c9_tail_value_colons_lossy "s" "a:b" (by decide)
  exact ⟨h.1, fun hc => absurd (h.2.mp hc) (by decide)⟩


/-! ### C7: the encoder flag tail -/

theorem strSplit1_strJoin1 (c : Char) (l : List String) (hne : l ≠ [])
    (hl : ∀ x ∈ l, chHas c x.data = false) :
    strSplit1 c (strJoin1 c l) = l := by
  induction l with
  | nil => exact absurd rfl hne
  | cons x xs ih =>
    cases xs with
    | nil =>
      unfold strSplit1
      rw [show (strJoin1 c [x]).data = x.data from rfl,
        chSplit1_no c x.data (hl x (List.mem_singleton.mpr rfl))]
      rfl
    | cons y ys =>
      unfold strSplit1
      have hd : (strJoin1 c (x :: y :: ys)).data =
          x.data ++ c :: (strJoin1 c (y :: ys)).data := by
        show ((x ++ String.singleton c) ++ strJoin1 c (y :: ys)).data = _
        show (x.data ++ [c]) ++ (strJoin1 c (y :: ys)).data = _
        simp
      rw [hd, chSplit1_sep _ _ _ (hl x (List.mem_cons_self _ _))]
      have ihr := ih (by simp) (fun z hz => hl z (List.mem_cons_of_mem _ hz))
      unfold strSplit1 at ihr
      simp only [List.map_cons, ihr]

theorem mem_insertSorted (x y : String) (l : List String) :
    y ∈ insertSorted x l ↔ y = x ∨ y ∈ l := by
  induction l with
  | nil => simp [insertSorted]
  | cons z zs ih =>
    simp only [insertSorted]
    split
    · simp
    · simp only [List.mem_cons, ih]
      tauto

theorem mem_sortStrings (y : String) (l : List String) :
    y ∈ sortStrings l ↔ y ∈ l := by
  induction l with
  | nil => simp [sortStrings]
  | cons z zs ih =>
    simp only [sortStrings, List.foldr_cons] at *
    rw [mem_insertSorted, ih]
    simp

theorem length_insertSorted (x : String) (l : List String) :
    (insertSorted x l).length = l.length + 1 := by
  induction l with
  | nil => rfl
  | cons z zs ih =>
    simp only [insertSorted]
    split
    · simp
    · simp [ih]

theorem sortStrings_ne_nil (l : List String) (h : l ≠ []) : sortStrings l ≠ [] := by
  cases l with
  | nil => exact absurd rfl h
  | cons x xs =>
    intro hc
    have := congrArg List.length hc
    simp only [sortStrings, List.foldr_cons, length_insertSorted, List.length_nil] at this
    omega

/-- Splitting the encoder tail on semicolons, provided at least one flag
pair exists and no pair contains a semicolon. -/
theorem strSplit1_buildTail (fl : Flags)
    (hne : flagPairs fl ≠ [])
    (hl : ∀ x ∈ sortStrings (flagPairs fl), chHas ';' x.data = false) :
    strSplit1 ';' (buildTail fl) = ("cdnv:" ++ BUILD_VERSION) :: sortStrings (flagPairs fl) := by
  unfold buildTail strSplit1
  have hd : ("cdnv:" ++ BUILD_VERSION ++ ";" ++ strJoin1 ';' (sortStrings (flagPairs fl))).data =
      ("cdnv:" ++ BUILD_VERSION).data ++ ';' :: (strJoin1 ';' (sortStrings (flagPairs fl))).data := by
    show (("cdnv:" ++ BUILD_VERSION).data ++ [';']) ++ _ = _
    simp
  rw [hd, chSplit1_sep _ _ _ (by decide)]
  have hs := strSplit1_strJoin1 ';' (sortStrings (flagPairs fl))
    (sortStrings_ne_nil _ hne) hl
  unfold strSplit1 at hs
  simp only [List.map_cons, hs]


theorem chLt_cons_gt (a b : Char) (as bs : List Char) (h : b.val.toNat < a.val.toNat) :
    chLt (a :: as) (b :: bs) = false := by
  simp [chLt, h, Nat.lt_asymm h]

theorem chHas_semi_pair_s (v : String) (h : chHas ';' v.data = false) :
    chHas ';' ("s:" ++ v).data = false := by
  show chHas ';' ('s' :: ':' :: v.data) = false
  simp [chHas, h]

theorem chHas_semi_pair_md (v : String) (h : chHas ';' v.data = false) :
    chHas ';' ("md:" ++ v).data = false := by
  show chHas ';' ('m' :: 'd' :: ':' :: v.data) = false
  simp [chHas, h]

theorem jsLt_s_md (v w : String) : jsLt ("s:" ++ v) ("md:" ++ w) = false := by
  show chLt ('s' :: ':' :: v.data) ('m' :: 'd' :: ':' :: w.data) = false
  exact chLt_cons_gt _ _ _ _ (by decide)

theorem jsLt_md_cdnv (w : String) :
    jsLt ("md:" ++ w) ("cdnv:" ++ BUILD_VERSION) = false := by
  show chLt ('m' :: 'd' :: ':' :: w.data) ("cdnv:" ++ BUILD_VERSION).data = false
  exact chLt_cons_gt _ _ _ _ (by decide)

theorem jsLt_s_cdnv (v : String) :
    jsLt ("s:" ++ v) ("cdnv:" ++ BUILD_VERSION) = false := by
  show chLt ('s' :: ':' :: v.data) ("cdnv:" ++ BUILD_VERSION).data = false
  exact chLt_cons_gt _ _ _ _ (by decide)

theorem sortStrings_single (x : String) : sortStrings [x] = [x] := rfl

theorem sortStrings_pair_s_md (v w : String) :
    sortStrings ["s:" ++ v, "md:" ++ w] = ["md:" ++ w, "s:" ++ v] := by
  simp [sortStrings, insertSorted, jsLt_s_md]

/-- C7 amended: the encoder appends `!!cdnv:<build>;` followed by the
lexicographically sorted semicolon-join of one `alias:value` pair per
recognized flag present — i.e. it emits the separator after `cdnv:<build>`
even when no flag follows (see the counterexample); when at least one flag
is present (and no value contains a semicolon) the semicolon-separated
list of the appended segment is exactly `cdnv:<build>` followed by the
sorted pairs, the whole list is lexicographically sorted with
`cdnv:<build>` first, and every pair belongs to a recognized flag. -/
theorem c7_encoder_tail (fl : Flags)
    (hne : flagPairs fl ≠ [])
    (hsv : optNoSemi fl.svelte = true) (hmd : optNoSemi fl.metadata = true) :
    strSplit1 ';' (buildTail fl) = ("cdnv:" ++ BUILD_VERSION) :: sortStrings (flagPairs fl) ∧
    strSortedB (strSplit1 ';' (buildTail fl)) = true ∧
    ∀ p ∈ sortStrings (flagPairs fl),
      (∃ v, fl.svelte = some v ∧ p = "s:" ++ v) ∨
      (∃ v, fl.metadata = some v ∧ p = "md:" ++ v) := by
  have hl : ∀ x ∈ sortStrings (flagPairs fl), chHas ';' x.data = false := by
    intro x hx
    rw [mem_sortStrings] at hx
    rcases hs : fl.svelte with _ | v <;> rcases hm : fl.metadata with _ | w
    · simp [flagPairs, hs, hm] at hx
    · simp [flagPairs, hs, hm] at hx
      subst hx
      exact chHas_semi_pair_md w (by simpa [optNoSemi, hm] using hmd)
    · simp [flagPairs, hs, hm] at hx
      subst hx
      exact chHas_semi_pair_s v (by simpa [optNoSemi, hs] using hsv)
    · simp [flagPairs, hs, hm] at hx
      rcases hx with hx | hx <;> subst hx
      · exact chHas_semi_pair_s v (by simpa [optNoSemi, hs] using hsv)
      · exact chHas_semi_pair_md w (by simpa [optNoSemi, hm] using hmd)
  have hsplit := strSplit1_buildTail fl hne hl
  refine ⟨hsplit, ?_, ?_⟩
  · rw [hsplit]
    rcases hs : fl.svelte with _ | v <;> rcases hm : fl.metadata with _ | w
    · exact absurd (by simp [flagPairs, hs, hm]) hne
    · simp only [flagPairs, hs, hm, List.nil_append]
      rw [sortStrings_single]
      simp [strSortedB, jsLt_md_cdnv]
    · simp only [flagPairs, hs, hm, List.append_nil]
      rw [sortStrings_single]
      simp [strSortedB, jsLt_s_cdnv]
    · simp only [flagPairs, hs, hm]
      rw [show ["s:" ++ v] ++ ["md:" ++ w] = ["s:" ++ v, "md:" ++ w] from rfl,
        sortStrings_pair_s_md]
      simp [strSortedB, jsLt_md_cdnv, jsLt_s_md]
  · intro p hp
    rw [mem_sortStrings] at hp
    rcases hs : fl.svelte with _ | v <;> rcases hm : fl.metadata with _ | w <;>
      simp [flagPairs, hs, hm] at hp
    · exact Or.inr ⟨w, rfl, hp⟩
    · exact Or.inl ⟨v, rfl, hp⟩
    · rcases hp with hp | hp
      · exact Or.inl ⟨v, rfl, hp⟩
      · exact Or.inr ⟨w, rfl, hp⟩

/-- C7 witness: both flags present — the tail splits into `cdnv:pre.1`
followed by the sorted pairs. -/
theorem c7_encoder_tail_witness :
    strSplit1 ';' (buildTail { svelte := some "4.2.19", metadata := some "1" }) =
      ["cdnv:" ++ BUILD_VERSION, "md:1", "s:4.2.19"] ∧
    strSortedB (strSplit1 ';'
      (buildTail { svelte := some "4.2.19", metadata := some "1" })) = true := by
  have h := c7_encoder_tail { svelte := some "4.2.19", metadata := some "1" }
    (by decide) (by decide) (by decide)
  refine ⟨?_, h.2.1⟩
  rw [h.1]
  decide

/-- C7 counterexample: with no recognized flag present, the encoder output
ends in `!!cdnv:pre.1;` — a trailing semicolon the claimed segment (one
`;alias:value` appendix per present flag, here none: `claimTail`) does not
contain. -/
theorem c7_counterexample :
    (stringify cfg_lp).pathname = "/npm/lp@1.3.0/index.js!!cdnv:pre.1;" ∧
    buildTail {} = "cdnv:pre.1;" ∧ claimTail {} = "cdnv:pre.1" ∧
    buildTail {} ≠ claimTail {} := by
  refine ⟨?_, ?_, ?_, ?_⟩ <;> decide


/-! ### C1: canonicalization is only conditionally idempotent -/

/-- The decoder on a pathname recognized by the canonical grammar. -/
theorem resolve_config_processed (env : Env) (url : MUrl) (g : PGroups)
    (hp : processedExec url.pathname = some g) :
    resolve_config_from_url env url =
      resolveConfigTail env url g.registry (some g.name) g.version g.extra
        (parseFlagsTail ((strSplitStr "!!" url.pathname).getD 1 "")) true [] := by
  unfold resolve_config_from_url
  rw [hp]

/-- The shared decoder tail in the processed case, when the manifest fetch
succeeds. -/
theorem resolveConfigTail_processed_ok (env : Env) (url : MUrl)
    (reg nm ver extra : String) (fl : Flags) (pkg : Manifest)
    (hpkg : env.packument nm ver = some pkg) :
    (resolveConfigTail env url reg (some nm) ver extra fl true []).2 =
      .ok { registry := reg, name := nm, version := ver,
            subpath := stringOfR (resolve_from_pkg env pkg extra
              (pathJoin [PACKAGES_ROOT ++ "/" ++ (pkg.name ++ "@" ++ pkg.version),
                "node_modules", nm])),
            url := url, package_json := pkg,
            folder := PACKAGES_ROOT ++ "/" ++ (pkg.name ++ "@" ++ pkg.version),
            proj_id := pkg.name ++ "@" ++ pkg.version,
            flags := metadataStep url.query fl } := by
  unfold resolveConfigTail
  simp [hpkg]

theorem metadataStep_nil (fl : Flags) : metadataStep [] fl = fl := rfl

/-- C1 amended: canonicalization is idempotent only under side conditions
that the code does not guarantee in general.  When a canonical URL
re-parses under the processed grammar with the same registry, name and
version, its flag tail decodes back to the same flags, it carries no
residual query parameters, and re-resolving the recorded subpath joins to
the same canonical path, then a second canonicalization is the identity.
The counterexample shows the failure when the resolved subpath leaves the
path grammar. -/
theorem c1_conditional_idempotence (env : Env) (u : MUrl) (cfg : Config)
    (g : PGroups) (pkg2 : Manifest)
    (h0 : resolveConfigR env u = .ok cfg)
    (hq : (stringify cfg).query = [])
    (hparse : processedExec (stringify cfg).pathname = some g)
    (hreg : g.registry = cfg.registry) (hname : g.name = cfg.name)
    (hver : g.version = cfg.version)
    (hflags : parseFlagsTail ((strSplitStr "!!" (stringify cfg).pathname).getD 1 "") = cfg.flags)
    (hpkg : env.packument cfg.name cfg.version = some pkg2)
    (hsub : pathJoin [cfg.name ++ "@" ++ cfg.version,
        stringOfR (resolve_from_pkg env pkg2 g.extra
          (pathJoin [PACKAGES_ROOT ++ "/" ++ (pkg2.name ++ "@" ++ pkg2.version),
            "node_modules", cfg.name]))] =
      pathJoin [cfg.name ++ "@" ++ cfg.version, cfg.subpath]) :
    canonicalize env (stringify cfg) = .ok (stringify cfg) := by
  unfold canonicalize resolveConfigR
  rw [resolve_config_processed env (stringify cfg) g hparse, hflags, hreg, hname, hver]
  rw [resolveConfigTail_processed_ok env (stringify cfg) cfg.registry cfg.name cfg.version
    g.extra cfg.flags pkg2 hpkg]
  rw [show ∀ (x : Config), Except.map stringify (Except.ok x) =
    (Except.ok (stringify x) : Except String MUrl) from fun x => rfl]
  refine congrArg Except.ok ?_
  have e2 : cfg.url.query.filter (fun p => !reservedFlagNames.contains p.1) = [] := hq
  simp only [stringify, hq, e2]
  rw [hsub, metadataStep_nil]
  simp

/-- C1 witness: for the `left-pad`-style package the canonical URL is a
fixed point of canonicalization. -/
theorem c1_conditional_idempotence_witness :
    canonicalize env_lp (stringify cfg_lp) = .ok (stringify cfg_lp) :=
  c1_conditional_idempotence env_lp u_lp cfg_lp ⟨"npm", "lp", "1.3.0", "index.js"⟩ mlp
    (by decide) (by decide) (by decide) (by decide) (by decide) (by decide)
    (by decide) (by decide) (by decide)

/-- C1 counterexample: for the `false`-browser package the resolved subpath
is the `data:` empty-module URL, the canonical pathname leaves both URL
grammars (a colon, a percent sign), and the second canonicalization throws
instead of returning the same canonical URL — whether the registry fails to
resolve the misparsed `undefined@latest` spec (first environment) or
resolves it, in which case the decode still dies at the `path.join` of the
undefined name (second environment). -/
theorem c1_counterexample :
    canonicalize env_fb u_fb = .ok c_fb ∧
    canonicalize env_fb c_fb = .error "VersionUnresolvable" ∧
    canonicalize env_fb2 u_fb = .ok c_fb ∧
    canonicalize env_fb2 c_fb = .error "TypeError" := by
  refine ⟨?_, ?_, ?_, ?_⟩ <;> decide

theorem metadataStep_metadata (q : List (String × String)) (fl : Flags)
    (hq : hasParam q "metadata" = true) :
    ((metadataStep q fl).metadata = some "1") ↔
      jsTestFalse0Null ((getParam q "metadata").getD "") = false := by
  unfold metadataStep
  rw [hq]
  simp only [if_true]
  by_cases hv : (getParam q "metadata").getD "" = ""
  · rw [hv]
    simp [jsTestFalse0Null, chContains, litL]
  · rw [if_pos hv]
    by_cases ht : jsTestFalse0Null ((getParam q "metadata").getD "") = true
    · simp [ht]
    · simp only [Bool.not_eq_true] at ht
      simp [ht]

theorem resolveConfigTail_flags (env : Env) (url : MUrl) (reg : String)
    (nameOpt : Option String) (sv extra : String) (fl : Flags) (pr : Bool)
    (tr : List Ev) (cfg : Config)
    (h : (resolveConfigTail env url reg nameOpt sv extra fl pr tr).2 = .ok cfg) :
    cfg.flags = metadataStep url.query fl := by
  unfold resolveConfigTail at h
  dsimp only at h
  repeat' split at h
  all_goals dsimp only at h
  all_goals first
    | (simp only [Except.ok.injEq] at h
       subst h
       rfl)
    | simp at h


/-- C8: for every request URL whose query has the `metadata` key, the
decoded config carries the `metadata` flag (set to `"1"`) exactly when the
value does not match the unanchored test `(false|0|null)`; in particular a
bare `?metadata` (empty value) sets the flag. -/
theorem c8_metadata_query_flag (env : Env) (u : MUrl) (cfg : Config)
    (h : resolveConfigR env u = .ok cfg)
    (hq : hasParam u.query "metadata" = true) :
    (cfg.flags.metadata = some "1") ↔
      jsTestFalse0Null ((getParam u.query "metadata").getD "") = false := by
  have hfl : ∃ fl, cfg.flags = metadataStep u.query fl := by
    unfold resolveConfigR resolve_config_from_url at h
    repeat' split at h
    all_goals try exact ⟨_, resolveConfigTail_flags _ _ _ _ _ _ _ _ _ _ h⟩
    all_goals try simp at h
    all_goals
      by_cases hb : strEndsWith u.pathname ".svelte" = true ∨
          jsTruthyOpt (getParam u.query "svelte") = true
    · rw [if_pos hb] at h
      split at h
      · simp at h
      · exact ⟨_, resolveConfigTail_flags _ _ _ _ _ _ _ _ _ _ h⟩
    · rw [if_neg hb] at h
      exact ⟨_, resolveConfigTail_flags _ _ _ _ _ _ _ _ _ _ h⟩
    · rw [if_pos hb] at h
      split at h
      · simp at h
      · exact ⟨_, resolveConfigTail_flags _ _ _ _ _ _ _ _ _ _ h⟩
    · rw [if_neg hb] at h
      exact ⟨_, resolveConfigTail_flags _ _ _ _ _ _ _ _ _ _ h⟩
  obtain ⟨fl, hfl⟩ := hfl
  rw [hfl]
  exact metadataStep_metadata u.query fl hq

theorem c8_metadata_query_flag_witness :
    cfg_md.flags.metadata = some "1" :=
  (c8_metadata_query_flag env_lp u_md cfg_md (by decide) (by decide)).mpr (by decide)

theorem contains_insertOnce_self (l : List String) (x : String) :
    (insertOnce l x).contains x = true := by
  unfold insertOnce
  split
  · assumption
  · simp

theorem erase_insertOnce (l : List String) (x : String) (h : l.contains x = false) :
    (insertOnce l x).erase x = l := by
  have hx : x ∉ l := by
    simp at h
    exact h
  unfold insertOnce
  rw [if_neg (by simp; exact hx)]
  rw [List.erase_append_right [x] hx]
  · simp


/-- C4 amended: the in-flight set is cleaned up only on the cache-hit and
successful-build paths; the 307 redirect return and a throw after the
insertion (a failed install or an unreadable file) leave the canonical URL
in the set. -/
theorem c4_inflight_removal (env : CEnv) (fu : Bool) (inflight : List String)
    (u : MUrl) (cfg : Config)
    (hres : resolveConfigR env.toEnv u = .ok cfg)
    (hguard : (inflight.contains (hrefOf u) && fu) = false)
    (hnd : inflight.contains (hrefOf (stringify cfg)) = false) :
    ((∃ l, (compile_url env fu inflight u).outcome = .redirect307 l) ∨
      (∃ e, (compile_url env fu inflight u).outcome = .thrown e) →
      (compile_url env fu inflight u).inflight.contains (hrefOf (stringify cfg)) = true) ∧
    ((∃ b, (compile_url env fu inflight u).outcome = .hit200 b) ∨
      (∃ b, (compile_url env fu inflight u).outcome = .ok200 b) →
      (compile_url env fu inflight u).inflight.contains (hrefOf (stringify cfg)) = false) := by
  rcases hp : resolve_config_from_url env.toEnv u with ⟨tr, rc⟩
  have hrc : rc = .ok cfg := by
    have h2 := hres
    unfold resolveConfigR at h2
    rw [hp] at h2
    exact h2
  subst hrc
  unfold compile_url
  rw [hp]
  simp only [hguard, Bool.false_eq_true, if_false]
  by_cases hrd : u.pathname ≠ (stringify cfg).pathname
  · rw [if_pos hrd]
    constructor
    · intro _
      exact contains_insertOnce_self inflight (hrefOf (stringify cfg))
    · rintro (⟨b, hb⟩ | ⟨b, hb⟩) <;> simp at hb
  · rw [if_neg hrd]
    rcases hc : env.cache (stringify cfg).pathname with _ | body
    · dsimp only
      by_cases hi : env.installThrows = true
      · rw [if_pos hi]
        constructor
        · intro _
          exact contains_insertOnce_self inflight (hrefOf (stringify cfg))
        · rintro (⟨b, hb⟩ | ⟨b, hb⟩) <;> simp at hb
      · rw [if_neg hi]
        rcases hf : env.file (pathJoin [cfg.folder, "node_modules", cfg.name, cfg.subpath])
            with _ | content
        · dsimp only
          constructor
          · intro _
            exact contains_insertOnce_self inflight (hrefOf (stringify cfg))
          · rintro (⟨b, hb⟩ | ⟨b, hb⟩) <;> simp at hb
        · dsimp only
          constructor
          · rintro (⟨b, hb⟩ | ⟨b, hb⟩) <;> simp at hb
          · intro _
            rw [erase_insertOnce inflight (hrefOf (stringify cfg)) hnd]
            exact hnd
    · dsimp only
      constructor
      · rintro (⟨b, hb⟩ | ⟨b, hb⟩) <;> simp at hb
      · intro _
        rw [erase_insertOnce inflight (hrefOf (stringify cfg)) hnd]
        exact hnd

/-- C4 counterexample: a request whose raw URL differs from its canonical
URL adds the canonical href to the in-flight set and returns the 307
redirect without removing it — the invocation completes with the URL still
in the set, against the removal-on-every-completion-path claim. -/
theorem c4_counterexample :
    (compile_url cenv_lp false [] u_lp).outcome = .redirect307 c_lp.pathname ∧
    (compile_url cenv_lp false [] u_lp).inflight = [c_lp.pathname] := by
  constructor <;> decide

/-- C4 witness: on a cache hit the canonical URL is removed. -/
theorem c4_inflight_removal_witness :
    (compile_url cenv_hit false [] c_lp).inflight.contains
      (hrefOf (stringify cfg_lp_c)) = false :=
  (c4_inflight_removal cenv_hit false [] c_lp cfg_lp_c (by decide) (by decide)
    (by decide)).2 (Or.inl ⟨"cached", by decide⟩)

/-- The decoder tail, when it succeeds, always logs the manifest fetch, the
directory creation and the subpath resolution last — preceded only by its
input prefix, plus one registry version resolution in the raw case. -/
theorem resolveConfigTail_ok_trace (env : Env) (url : MUrl) (reg : String)
    (nameOpt : Option String) (sv extra : String) (fl : Flags) (pr : Bool)
    (tr : List Ev) (cfg : Config)
    (h : (resolveConfigTail env url reg nameOpt sv extra fl pr tr).2 = .ok cfg) :
    ∃ tr0, (resolveConfigTail env url reg nameOpt sv extra fl pr tr).1 =
      tr0 ++ [Ev.fetchInfo cfg.name cfg.version, Ev.mkdirEv cfg.folder, Ev.resolveSubpath] ∧
      (tr0 = tr ∨ ∃ spec, tr0 = tr ++ [Ev.pacoteManifest spec]) := by
  rcases nameOpt with _ | nm
  · exfalso
    unfold resolveConfigTail at h
    dsimp only at h
    repeat' split at h
    all_goals simp at h
  · by_cases hpr : pr = true
    · subst hpr
      unfold resolveConfigTail at h ⊢
      simp only [if_true, Option.getD_some] at h ⊢
      rcases hq : env.packument nm sv with _ | pkg
      · rw [hq] at h
        simp at h
      · rw [hq] at h
        dsimp only at h ⊢
        simp only [Except.ok.injEq] at h
        subst h
        exact ⟨tr, by simp, Or.inl rfl⟩
    · have hprf : pr = false := by
        cases pr
        · rfl
        · exact absurd rfl hpr
      subst hprf
      unfold resolveConfigTail at h ⊢
      simp only [Bool.false_eq_true, if_false, Option.getD_some] at h ⊢
      rcases hv : env.pacote (nm ++ "@" ++ sv) with _ | fv
      · rw [hv] at h
        simp at h
      · rw [hv] at h
        dsimp only at h ⊢
        rcases hq : env.packument nm fv with _ | pkg
        · rw [hq] at h
          simp at h
        · rw [hq] at h
          dsimp only at h ⊢
          simp only [Except.ok.injEq] at h
          subst h
          exact ⟨tr ++ [Ev.pacoteManifest (nm ++ "@" ++ sv)], by simp, Or.inr ⟨_, rfl⟩⟩

/-- A successful decode logs its external effects as: version resolutions
(zero to two `pacote.manifest` calls), then the full-manifest fetch, the
directory creation and the subpath resolution, in that order. -/
theorem resolveConfig_ok_trace (env : Env) (u : MUrl) (cfg : Config)
    (h : resolveConfigR env u = .ok cfg) :
    ∃ tr0, (resolve_config_from_url env u).1 =
      tr0 ++ [Ev.fetchInfo cfg.name cfg.version, Ev.mkdirEv cfg.folder, Ev.resolveSubpath] ∧
      ∀ e ∈ tr0, ∃ spec, e = Ev.pacoteManifest spec := by
  unfold resolveConfigR at h
  rcases hpe : processedExec u.pathname with _ | g
  · unfold resolve_config_from_url at h ⊢
    rw [hpe] at h ⊢
    dsimp only at h ⊢
    by_cases hb : (strEndsWith u.pathname ".svelte" ||
        jsTruthyOpt (getParam u.query "svelte")) = true
    · rw [if_pos hb] at h ⊢
      set pc := env.pacote ("svelte@" ++
          (if jsTruthyOpt (getParam u.query "svelte") = true
            then (getParam u.query "svelte").getD "" else "4")) with hpc
      clear_value pc
      rcases pc with _ | sv
      · simp at h
      · dsimp only at h ⊢
        obtain ⟨tr0, htr, hsh⟩ := resolveConfigTail_ok_trace _ _ _ _ _ _ _ _ _ _ h
        refine ⟨tr0, htr, ?_⟩
        rcases hsh with rfl | ⟨spec, rfl⟩
        · intro e he
          simp at he
          exact ⟨_, he⟩
        · intro e he
          simp at he
          rcases he with he | he
          · exact ⟨_, he⟩
          · exact ⟨_, he⟩
    · rw [if_neg hb] at h ⊢
      obtain ⟨tr0, htr, hsh⟩ := resolveConfigTail_ok_trace _ _ _ _ _ _ _ _ _ _ h
      refine ⟨tr0, htr, ?_⟩
      rcases hsh with rfl | ⟨spec, rfl⟩
      · intro e he
        simp at he
      · intro e he
        simp at he
        exact ⟨_, he⟩
  · rw [resolve_config_processed env u g hpe] at h ⊢
    obtain ⟨tr0, htr, hsh⟩ := resolveConfigTail_ok_trace _ _ _ _ _ _ _ _ _ _ h
    refine ⟨tr0, htr, ?_⟩
    rcases hsh with rfl | ⟨spec, rfl⟩
    · intro e he
      simp at he
    · intro e he
      simp at he
      exact ⟨_, he⟩

/-- C10 amended: on every user-originated request (`follow_up = false`)
whose canonical URL has a cache entry, the full-manifest network fetch, the
package-directory creation and the subpath resolution all run before the
single cache lookup, and the hit skips everything after the lookup: the
install, the file read, the compile, the rewrite, the cache store and the
prefetches. -/
theorem c10_hit_skips (env : CEnv) (inflight : List String) (u : MUrl)
    (cfg : Config) (body : String)
    (hres : resolveConfigR env.toEnv u = .ok cfg)
    (hcanon : u.pathname = (stringify cfg).pathname)
    (hhit : env.cache (stringify cfg).pathname = some body) :
    (compile_url env false inflight u).outcome = .hit200 body ∧
    (compile_url env false inflight u).trace =
      (resolve_config_from_url env.toEnv u).1 ++ [Ev.cacheGet (stringify cfg).pathname] ∧
    (∃ tr0, (resolve_config_from_url env.toEnv u).1 =
      tr0 ++ [Ev.fetchInfo cfg.name cfg.version, Ev.mkdirEv cfg.folder, Ev.resolveSubpath] ∧
      ∀ e ∈ tr0, ∃ spec, e = Ev.pacoteManifest spec) ∧
    (∀ e ∈ (compile_url env false inflight u).trace, isSkipEv e = false) := by
  obtain ⟨tr0, htr, hpac⟩ := resolveConfig_ok_trace env.toEnv u cfg hres
  rcases hp : resolve_config_from_url env.toEnv u with ⟨tr, rc⟩
  have hrc : rc = .ok cfg := by
    have h2 := hres
    unfold resolveConfigR at h2
    rw [hp] at h2
    exact h2
  subst hrc
  rw [hp] at htr
  dsimp only at htr
  have hcu : compile_url env false inflight u =
      { trace := tr ++ [Ev.cacheGet (stringify cfg).pathname],
        outcome := .hit200 body,
        inflight := (insertOnce inflight (hrefOf (stringify cfg))).erase
          (hrefOf (stringify cfg)) } := by
    unfold compile_url
    rw [hp]
    simp only [Bool.and_false, Bool.false_eq_true, if_false]
    rw [if_neg (by simp [hcanon])]
    rw [hhit]
  rw [hcu]
  refine ⟨rfl, rfl, ⟨tr0, htr, hpac⟩, ?_⟩
  intro e he
  dsimp only at he
  rw [htr] at he
  simp only [List.mem_append, List.mem_cons, List.not_mem_nil, or_false,
    List.mem_singleton] at he
  rcases he with ((he | he) | he)
  · obtain ⟨spec, rfl⟩ := hpac e he
    rfl
  · rcases he with rfl | rfl | rfl <;> rfl
  · subst he
    rfl

/-- C10 counterexample: on a cache hit the file-read step is also skipped
— the trace contains no read event, although reading the file is a
pipeline step distinct from the install, compile, rewrite and store steps
the claim lists as the only ones skipped (the same request on a cold cache
does read the file). -/
theorem c10_counterexample :
    (compile_url cenv_hit false [] c_lp).outcome = .hit200 "cached" ∧
    (compile_url cenv_hit false [] c_lp).trace.any isReadEv = false ∧
    (compile_url cenv_lp false [] c_lp).trace.any isReadEv = true := by
  refine ⟨?_, ?_, ?_⟩ <;> decide

/-- C10 witness: the hit run of the `left-pad`-style request fetches the
manifest, makes the directory and resolves the subpath before the lookup,
and performs none of the skipped steps. -/
theorem c10_hit_skips_witness :
    (compile_url cenv_hit false [] c_lp).outcome = .hit200 "cached" ∧
    ∀ e ∈ (compile_url cenv_hit false [] c_lp).trace, isSkipEv e = false := by
  have h := c10_hit_skips cenv_hit [] c_lp cfg_lp_c "cached" (by decide) (by decide) (by decide)
  exact ⟨h.1, h.2.2.2⟩

end Sfcdn
